import Mathlib

/-!
Verification of the rustkill directory-cleanup tool (src/src/dir_listing.rs,
src/src/utils.rs, src/src/main.rs, src/src/models.rs) against its
natural-language specification.

The filesystem is modelled as an inductive tree `Fs`.  A node records exactly
the information the Rust code can observe about a path through `std::fs`:

* `Fs.file size` — an entry whose metadata reads successfully and reports a
  regular file of `size` bytes (`metadata.len()`),
* `Fs.badMeta` — an entry whose `metadata()` call fails,
* `Fs.dir selfLen readable children` — an entry whose metadata reads
  successfully and reports a directory; `selfLen` is the directory's own
  `metadata.len()` (the inode size, e.g. 4096 on Linux, never an aggregate);
  `readable = false` means `fs::read_dir` on the directory fails, in which
  case `children` is irrelevant.

Paths are the absolute path strings the code builds with `Path::join`,
modelled as `parent ++ "/" ++ name`.  `Path::canonicalize` is modelled as
succeeding and returning the already-canonical model path.  Progress bars,
logging and terminal output are ignored: they do not influence the returned
data.  All definitions are structural recursions, so every modelled function
is total and kernel-computable.
-/

namespace Rustkill

/-! ### String helpers

Lean's built-in `String.startsWith` and substring search are not
kernel-reducible, so the Rust `str::starts_with` / `str::contains`
(substring containment) primitives are modelled by structural recursion on
the character lists. -/

/-- Character-list lexicographic less-or-equal, used to model Rust's
`Vec::<String>::sort`. -/
def chListLE : List Char → List Char → Bool
  | [], _ => true
  | _ :: _, [] => false
  | a :: as, b :: bs => if a < b then true else if b < a then false else chListLE as bs

/-- String less-or-equal (lexicographic on characters). -/
def strLE (a b : String) : Bool := chListLE a.toList b.toList

/-- Is the first list a prefix of the second? -/
def isPre : List Char → List Char → Bool
  | [], _ => true
  | _ :: _, [] => false
  | a :: as, b :: bs => a == b && isPre as bs

/-- Does `needle` occur as a contiguous infix of `hay`? -/
def hasInfix (needle hay : List Char) : Bool :=
  isPre needle hay || match hay with
    | [] => false
    | _ :: t => hasInfix needle t

/-- Model of Rust `hay.contains(needle)` (substring containment). -/
def strContains (hay needle : String) : Bool := hasInfix needle.toList hay.toList

/-- Model of Rust `s.starts_with(pre)`. -/
def strStarts (s pre : String) : Bool := isPre pre.toList s.toList

/-! ### Data model (src/src/models.rs) -/

/-- `FileEntry` from src/src/models.rs (the scan-side fields; the
`delete_status` field used by main.rs is tracked separately by the
`DeleteStatus` state machine below, since models.rs as committed does not
declare it). -/
structure FileEntry where
  file_type : Char
  permissions : String
  size_display : String
  size_raw : Nat
  path : String
deriving Repr, DecidableEq

/-- The filesystem tree a scan runs over (see the module comment). -/
inductive Fs where
  | file (size : Nat)
  | badMeta
  | dir (selfLen : Nat) (readable : Bool) (children : List (String × Fs))
deriving Repr

/-- Does `entry.metadata()` succeed on this node? -/
def metaOk : Fs → Bool
  | .badMeta => false
  | _ => true

/-- `metadata.is_dir()` for a node whose metadata reads successfully. -/
def isDirMeta : Fs → Bool
  | .dir _ _ _ => true
  | _ => false

/-- `metadata.len()` for a node whose metadata reads successfully: the byte
size for a regular file, the directory's own inode size for a directory. -/
def metaLen : Fs → Nat
  | .file n => n
  | .dir sl _ _ => sl
  | .badMeta => 0

/-- The `permissions` string the code builds:
`format!("{}-{}-{}", readonly ? "r" : " ", "w", "x")`.  The model carries no
permission bits, so entries are modelled as writable (`readonly = false`). -/
def permString (readonly : Bool) : String :=
  (if readonly then "r" else " ") ++ "-" ++ "w" ++ "-" ++ "x"

/-- Model of `get_canonical_path` (src/src/dir_listing.rs:552-560):
canonicalization succeeds on model paths and returns the path unchanged,
after stripping a Windows verbatim prefix `\\?\` if present. -/
def get_canonical_path (p : String) : String :=
  if strStarts p "\\\\?\\" then String.mk (p.toList.drop 4) else p

/-! ### human_readable_size (src/src/utils.rs:2-21)

The Rust function carries `size = bytes as f64` and repeatedly divides by
1024.  Dividing an f64 by 1024 only decrements the exponent, hence is exact,
so after `unit` iterations the value is exactly `bytes / 1024 ^ unit`; the
model therefore carries the pair `(bytes, unit)` and the loop guard
`size >= 1024.0` becomes `1024 ^ (unit + 1) ≤ bytes`.  (For inputs above
2^53 the initial `u64 → f64` conversion may round and the printed digits of
the real program can differ, but the unit boundaries are powers of two below
2^53, so unit selection is exact for every input.)  The guard
`unit < units.len() - 1` is encoded structurally: the fuel argument starts
at `units.length - 1` and counts the iterations still allowed. -/

/-- The unit array `["B", "KB", "MB", "GB", "TB"]`. -/
def units : List String := ["B", "KB", "MB", "GB", "TB"]

/-- The unit-selection `while` loop.  `fuel` is `units.len() - 1 - unit`,
i.e. how many more times `unit` may be incremented. -/
def hrs_loop : Nat → Nat → Nat → Nat
  | 0, _, unit => unit
  | fuel + 1, bytes, unit =>
      if 1024 ^ (unit + 1) ≤ bytes then hrs_loop fuel bytes (unit + 1) else unit

/-- The unit index `human_readable_size` selects for `bytes`. -/
def hrs_unit (bytes : Nat) : Nat := hrs_loop (units.length - 1) bytes 0

/-- Round `num / den` to the nearest integer, ties to even — the rounding
Rust's `{:.1}` float formatting applies (here to `10 * size`). -/
def roundHalfEvenDiv (num den : Nat) : Nat :=
  let q := num / den
  let r := num % den
  if 2 * r < den then q
  else if den < 2 * r then q + 1
  else if q % 2 = 0 then q else q + 1

/-- `format!("{:.1}", size)` where `size = bytes / 1024 ^ unit` exactly. -/
def fmt_fixed1 (bytes unit : Nat) : String :=
  let n := roundHalfEvenDiv (10 * bytes) (1024 ^ unit)
  toString (n / 10) ++ "." ++ toString (n % 10)

/-- Model of `human_readable_size` (src/src/utils.rs:2-21).  As in the
source, the loop runs first and the `bytes == 0` special case is tested
afterwards.  The list lookup `units[unit]` is total here via `getD`; the
default is never reached because the loop keeps `unit < units.length`. -/
def human_readable_size (bytes : Nat) : String :=
  let unit := hrs_unit bytes
  if bytes = 0 then "0B"
  else fmt_fixed1 bytes unit ++ units.getD unit "<oob>"

/-! ### Parallelism policy (src/src/dir_listing.rs:115-144) -/

/-- Subdirectory census over the already-metadata-filtered items:
`items.iter().filter(|(_, m)| m.is_dir()).count()`. -/
def dirCount (items : List (String × Fs)) : Nat :=
  (items.filter fun c => isDirMeta c.2).length

/-- The items list `inner_calculate_dynamic` builds: the children whose
`DirEntry` and `metadata()` both read successfully. -/
def okItems (cs : List (String × Fs)) : List (String × Fs) :=
  cs.filter fun c => metaOk c.2

/-- Model of `should_use_parallel` (src/src/dir_listing.rs:115-144), exactly
as in the source: early depth cutoff, then the census of the given items. -/
def should_use_parallel (items : List (String × Fs)) (depth : Nat) : Bool :=
  if depth > 10 then false
  else
    let dir_count := dirCount items
    if dir_count > 8 then true
    else if items.length > 100 then true
    else if depth > 5 then decide (dir_count > 4)
    else decide (depth < 3) || (decide (depth < 6) && decide (dir_count > 2))

/-- The specification's contract signature for the same decision:
`decide(depth, directory_count, total_items)`, with the counts passed as
parameters instead of derived from the items slice. -/
def parallel_decision (depth dir_count total_items : Nat) : Bool :=
  if depth > 10 then false
  else if dir_count > 8 then true
  else if total_items > 100 then true
  else if depth > 5 then decide (dir_count > 4)
  else decide (depth < 3) || (decide (depth < 6) && decide (dir_count > 2))

/-! ### Size aggregation (src/src/dir_listing.rs:48-163)

`inner_calculate_dynamic` lists the directory, filters out entries whose
metadata cannot be read, decides serial versus parallel with
`should_use_parallel`, and sums: a subdirectory contributes a recursive
call at `depth + 1`, a file contributes `metadata.len()`.  The source first
materialises the filtered `items` vector and then folds over it; here the
metadata filter is fused into the child traversal (an entry with unreadable
metadata contributes 0 and is not recursed into) so that the recursion stays
structural, while the census for the parallel decision is taken over the
same filtered list (`okItems`) as in the source.  The parallel branch models
rayon's order-insensitive `map(..).sum()` as a right fold; the serial branch
models the `for` loop's running accumulator.  A `read_dir` failure yields 0
for the whole subtree; calling the function on a non-directory also fails
`read_dir` and yields 0. -/

mutual
/-- Model of `inner_calculate_dynamic` (src/src/dir_listing.rs:48-113). -/
def inner_calculate_dynamic : Fs → Nat → Nat
  | .file _, _ => 0
  | .badMeta, _ => 0
  | .dir _ false _, _ => 0
  | .dir _ true cs, depth =>
      if should_use_parallel (okItems cs) depth then
        dynChildrenPar cs (depth + 1)
      else
        dynChildrenSer cs (depth + 1) 0

/-- The parallel branch: `items.into_par_iter().map(..).sum()`. -/
def dynChildrenPar : List (String × Fs) → Nat → Nat
  | [], _ => 0
  | (_, t) :: rest, d =>
      (if metaOk t then (if isDirMeta t then inner_calculate_dynamic t d else metaLen t) else 0)
      + dynChildrenPar rest d

/-- The serial branch: `let mut total = 0; for .. { total += .. }; total`. -/
def dynChildrenSer : List (String × Fs) → Nat → Nat → Nat
  | [], _, total => total
  | (_, t) :: rest, d, total =>
      dynChildrenSer rest d
        (total + (if metaOk t then (if isDirMeta t then inner_calculate_dynamic t d else metaLen t) else 0))
end

mutual
/-- Model of `inner_calculate_serial` (src/src/dir_listing.rs:147-163):
plain recursive fold, entries with unreadable metadata skipped. -/
def inner_calculate_serial : Fs → Nat
  | .file _ => 0
  | .badMeta => 0
  | .dir _ false _ => 0
  | .dir _ true cs => serChildren cs 0

/-- The serial loop body of `inner_calculate_serial`. -/
def serChildren : List (String × Fs) → Nat → Nat
  | [], total => total
  | (_, t) :: rest, total =>
      serChildren rest
        (total + (if metaOk t then (if isDirMeta t then inner_calculate_serial t else metaLen t) else 0))
end

mutual
/-- Specification-side value of one child entry: a readable file counts its
size, a readable directory counts its readable subtree, anything else 0. -/
def entryBytes : Fs → Nat
  | .file n => n
  | .badMeta => 0
  | .dir _ false _ => 0
  | .dir _ true cs => entsFileBytes cs

/-- Specification-side sum over a children list. -/
def entsFileBytes : List (String × Fs) → Nat
  | [] => 0
  | (_, t) :: rest => entryBytes t + entsFileBytes rest
end

/-- Written from the specification's words for the refinement claim: the
aggregate of a subtree root is "the sum of the sizes of all readable files
in the subtree" (files under unreadable directories or with unreadable
metadata contribute nothing; a root that cannot be listed aggregates 0). -/
def spec_aggregate : Fs → Nat
  | .dir _ true cs => entsFileBytes cs
  | _ => 0

/-! ### Matcher / collector (src/src/dir_listing.rs:165-294 and 482-550) -/

/-- The target directory name hard-coded by `list_directory` and
`scan_directory_with_progress`: `let name = String::from("node_modules")`. -/
def target_name : String := "node_modules"

/-- The `FileEntry` that `calculate_dir_size_parallel` pushes for a matched
subdirectory: hard-coded type `'d'` and permissions `"rwx"`, size computed
by `calculate_dir_size(sub_path, true, pb, true)` — i.e. the dynamic
aggregator at depth 0, displayed human-readably — and the canonicalized
path. -/
def cdsp_match_entry (path : String) (sub : Fs) : FileEntry :=
  { file_type := 'd'
    permissions := "rwx"
    size_display := human_readable_size (inner_calculate_dynamic sub 0)
    size_raw := inner_calculate_dynamic sub 0
    path := get_canonical_path path }

mutual
/-- Model of `calculate_dir_size_parallel` (src/src/dir_listing.rs:482-550),
the recursive matching phase.  It lists `file_path`; on a listing failure it
contributes no entries.  Children are filtered: a name starting with `'.'`
is dropped, then entries with unreadable metadata, then non-directories.
Each surviving subdirectory either matches (`sub_name.contains(name)`) — one
entry with the aggregated size is produced and the subtree is not descended
further — or the function recurses into it.  The per-child entry vectors are
concatenated in child order, as rayon's indexed `collect` preserves order. -/
def calculate_dir_size_parallel : String → String → Fs → List FileEntry
  | _, _, .file _ => []
  | _, _, .badMeta => []
  | _, _, .dir _ false _ => []
  | path, name, .dir _ true cs => cdspChildren path name cs

/-- Per-child processing of `calculate_dir_size_parallel`. -/
def cdspChildren : String → String → List (String × Fs) → List FileEntry
  | _, _, [] => []
  | path, name, (n, sub) :: rest =>
      (if strStarts n "." then []
       else if metaOk sub && isDirMeta sub then
         if strContains n name then [cdsp_match_entry (path ++ "/" ++ n) sub]
         else calculate_dir_size_parallel (path ++ "/" ++ n) name sub
       else [])
      ++ cdspChildren path name rest
end

/-- Insert an entry into a name-sorted list (stable insertion). -/
def insertByName (x : String × Fs) : List (String × Fs) → List (String × Fs)
  | [] => [x]
  | y :: ys => if strLE x.1 y.1 then x :: y :: ys else y :: insertByName x ys

/-- Model of collecting the child names into a vector and `files.sort()`:
sort the children by name. -/
def sortByName : List (String × Fs) → List (String × Fs)
  | [] => []
  | x :: xs => insertByName x (sortByName xs)

/-- The `FileEntry` `list_directory` pushes for a root-level child that is a
directory whose name contains `target_name`: built from the child's own
metadata (`metadata.len()`, i.e. the directory inode size — not an
aggregate), with canonicalized path. -/
def ld_root_entry (path : String) (sub : Fs) : FileEntry :=
  { file_type := if isDirMeta sub then 'd' else '-'
    permissions := permString false
    size_display := human_readable_size (metaLen sub)
    size_raw := metaLen sub
    path := get_canonical_path path }

/-- The root-level loop of `list_directory` over the name-sorted children.
A child with unreadable metadata is skipped; a regular file is skipped; a
directory whose name does not contain `"node_modules"` is handed to
`calculate_dir_size_parallel`; a directory whose name does contain it falls
through and is emitted with its own metadata length. -/
def ldChildren : String → List (String × Fs) → List FileEntry
  | _, [] => []
  | path, (n, sub) :: rest =>
      (if metaOk sub then
        if isDirMeta sub then
          if strContains n target_name then [ld_root_entry (path ++ "/" ++ n) sub]
          else calculate_dir_size_parallel (path ++ "/" ++ n) target_name sub
        else []
      else [])
      ++ ldChildren path rest

/-- Model of `list_directory` (src/src/dir_listing.rs:165-294), restricted to
the entry list it returns (the table printing and progress bars do not
affect it).  The root listing is name-sorted; a root listing failure returns
the empty vector. -/
def list_directory (rootPath : String) : Fs → List FileEntry
  | .dir _ true cs => ldChildren rootPath (sortByName cs)
  | _ => []

/-! ### Interactive search (src/src/dir_listing.rs:421-479) -/

/-- The `FileEntry` `search_directory_recursive` sends for a name-matched
entry: type from `is_dir`, size from the entry's own `metadata.len()`
(a directory reports its inode size here, no aggregation), canonicalized
path. -/
def search_entry (path : String) (sub : Fs) : FileEntry :=
  { file_type := if isDirMeta sub then 'd' else '-'
    permissions := permString false
    size_display := human_readable_size (metaLen sub)
    size_raw := metaLen sub
    path := get_canonical_path path }

mutual
/-- Model of `search_directory_recursive` (src/src/dir_listing.rs:421-479),
as the list of entries sent over the channel in order (the receiver is
modelled as staying open).  A listing failure contributes nothing. -/
def search_directory_recursive : String → String → Fs → List FileEntry
  | _, _, .file _ => []
  | _, _, .badMeta => []
  | _, _, .dir _ false _ => []
  | path, pattern, .dir _ true cs => searchChildren path pattern cs

/-- Per-child processing of `search_directory_recursive`: if the name
contains the pattern and the metadata reads, an entry is sent (a metadata
failure `continue`s, skipping even the recursion); afterwards — matched or
not — the walk recurses into every child that is a directory. -/
def searchChildren : String → String → List (String × Fs) → List FileEntry
  | _, _, [] => []
  | path, pattern, (n, sub) :: rest =>
      (if strContains n pattern then
        if metaOk sub then
          search_entry (path ++ "/" ++ n) sub ::
            (if isDirMeta sub then search_directory_recursive (path ++ "/" ++ n) pattern sub
             else [])
        else []
      else
        if metaOk sub && isDirMeta sub then
          search_directory_recursive (path ++ "/" ++ n) pattern sub
        else [])
      ++ searchChildren path pattern rest
end

/-! ### Progress-reporting scan (src/src/dir_listing.rs:563-655)

The model returns the list of `ScanStatus` events sent on the channel, in
send order, together with the returned entry vector.  The source sorts the
children of the current directory at every level before iterating; here the
per-level sort is hoisted into a whole-tree pre-sort `sortTree` applied
once at the top (`scan_directory_with_progress` below), which produces the
identical iteration at every level and keeps the recursion structural. -/

/-- The scan-status events of src/src/main.rs as sent by
src/src/dir_listing.rs (the send sites supply only `current_path` and
`progress` for `Scanning`; the extra `total_items`/`processed_items` fields
declared in main.rs are not supplied there — the two files disagree — so the
model carries the fields the send sites build). -/
inductive ScanStatus where
  | Scanning (current_path : String) (progress : Nat)
  | Completed (total_files : Nat) (total_size : String)
deriving Repr, DecidableEq

/-- `(processed as f64 / total as f64 * 100.0) as u16`, modelled as exact
integer arithmetic `⌊100·processed/total⌋` (the f64 round trip can differ by
one ulp-truncation in edge cases; no claim depends on the value).  For
`total = 0` the f64 expression is NaN and `as u16` yields 0; that branch is
unreachable since an empty directory runs the loop zero times. -/
def progress_percent (processed total : Nat) : Nat :=
  if total = 0 then 0 else processed * 100 / total

mutual
/-- Recursively sort every directory's children by name (the per-level
`files.sort()` hoisted into a single pre-pass). -/
def sortTree : Fs → Fs
  | .file n => .file n
  | .badMeta => .badMeta
  | .dir sl r cs => .dir sl r (sortByName (sortEachChild cs))

/-- Apply `sortTree` to each child subtree. -/
def sortEachChild : List (String × Fs) → List (String × Fs)
  | [] => []
  | (n, t) :: rest => (n, sortTree t) :: sortEachChild rest
end

/-- The `FileEntry` the scan pushes for a regular file. -/
def scan_file_entry (path : String) (sub : Fs) : FileEntry :=
  { file_type := if isDirMeta sub then 'd' else '-'
    permissions := permString false
    size_display := human_readable_size (metaLen sub)
    size_raw := metaLen sub
    path := get_canonical_path path }

mutual
/-- The body of `scan_directory_with_progress` on an (already sorted) tree:
send the initial `Scanning`; on a listing failure return no entries (the
initial event was already sent and no `Completed` follows); otherwise walk
the children and finish with `Completed { entries.len(), total size }`. -/
def scanGo : String → Fs → List ScanStatus × List FileEntry
  | path, .file _ => ([.Scanning path 0], [])
  | path, .badMeta => ([.Scanning path 0], [])
  | path, .dir _ false _ => ([.Scanning path 0], [])
  | path, .dir _ true cs =>
      let r := scanGoChildren path cs.length 0 cs
      (ScanStatus.Scanning path 0 ::
        (r.1 ++ [ScanStatus.Completed r.2.length
                  (human_readable_size ((r.2.map FileEntry.size_raw).sum))]),
       r.2)

/-- The per-child loop of `scan_directory_with_progress`: bump the processed
counter and send a `Scanning` for every child (before its metadata is
read); a child with unreadable metadata is then skipped; a directory whose
name does not contain `"node_modules"` is scanned recursively and its
entries appended; a directory whose name does contain it is skipped
entirely (no entry, no recursion); a regular file is pushed as an entry. -/
def scanGoChildren : String → Nat → Nat → List (String × Fs) → List ScanStatus × List FileEntry
  | _, _, _, [] => ([], [])
  | path, total, processed, (n, sub) :: rest =>
      let file_path := path ++ "/" ++ n
      let ev := ScanStatus.Scanning file_path (progress_percent (processed + 1) total)
      let child :=
        if metaOk sub then
          if isDirMeta sub then
            if strContains n target_name then (([] : List ScanStatus), ([] : List FileEntry))
            else scanGo file_path sub
          else ([], [scan_file_entry file_path sub])
        else ([], [])
      let r := scanGoChildren path total (processed + 1) rest
      (ev :: (child.1 ++ r.1), child.2 ++ r.2)
end

/-- Model of `scan_directory_with_progress` (src/src/dir_listing.rs:563-655):
the per-level name sort is applied as a whole-tree pre-sort, then the
walk runs.  Returns (events sent in order, returned entries). -/
def scan_directory_with_progress (path : String) (t : Fs) :
    List ScanStatus × List FileEntry :=
  scanGo path (sortTree t)

/-- Number of `Completed` events in an event trace. -/
def countCompleted (evs : List ScanStatus) : Nat :=
  evs.countP fun e => match e with
    | .Completed _ _ => true
    | _ => false

mutual
/-- The number of `Completed` events the scan sends on a given tree: one per
recursive invocation whose `read_dir` succeeds, i.e. one for the root plus
one for every recursed-into (readable, non-matching, metadata-ok) directory. -/
def completedCount : Fs → Nat
  | .dir _ true cs => 1 + completedCountChildren cs
  | _ => 0

/-- Sum of `completedCount` over the children the scan recurses into. -/
def completedCountChildren : List (String × Fs) → Nat
  | [] => 0
  | (n, sub) :: rest =>
      (if metaOk sub && (isDirMeta sub && !strContains n target_name)
       then completedCount sub else 0)
      + completedCountChildren rest
end

/-! ### Deletion lifecycle (src/src/main.rs:203-266)

`DeleteStatus` is referenced by main.rs (`crate::models::DeleteStatus`) with
exactly the variants matched there; models.rs as committed does not contain
the declaration, so the enum is taken from its use sites.  The transition
logic lives in the space-key handler of `run_scan_ui`. -/

/-- The three deletion states matched in src/src/main.rs:210-242. -/
inductive DeleteStatus where
  | NotDeleted
  | Deleting
  | Deleted
deriving Repr, DecidableEq

/-- The sequence of states the selected entry's `delete_status` passes
through when the space key ("request-delete") is pressed, given whether
`fs::remove_dir_all` succeeds: from `NotDeleted` the code sets `Deleting`,
runs the removal, then sets `Deleted` on success or restores `NotDeleted`
on failure; in state `Deleting` the code re-assigns `Deleting` and does
nothing else; in state `Deleted` it assigns nothing. -/
def request_delete_trace : DeleteStatus → Bool → List DeleteStatus
  | .NotDeleted, true => [.Deleting, .Deleted]
  | .NotDeleted, false => [.Deleting, .NotDeleted]
  | .Deleting, _ => [.Deleting]
  | .Deleted, _ => []

/-- The state after one request-delete action. -/
def request_delete (s : DeleteStatus) (removeOk : Bool) : DeleteStatus :=
  (request_delete_trace s removeOk).getLastD s

/-! ### Concrete trees used by the claim scenarios -/

/-- The specification's scenario tree:
`root/{a/node_modules/(100MB of files), b/src/(10 files, 1KB total), node_modules/(5MB)}`.
Directory inode sizes are 4096 as on a typical Linux filesystem. -/
def scenario_tree : Fs :=
  .dir 4096 true
    [ ("a", .dir 4096 true [("node_modules", .dir 4096 true [("big", .file 104857600)])])
    , ("b", .dir 4096 true [("src", .dir 4096 true
        [("f0", .file 100), ("f1", .file 100), ("f2", .file 100), ("f3", .file 100),
         ("f4", .file 100), ("f5", .file 100), ("f6", .file 100), ("f7", .file 100),
         ("f8", .file 100), ("f9", .file 100)])])
    , ("node_modules", .dir 4096 true [("lib", .file 5242880)]) ]

/-- A root with a single empty, readable, non-matching subdirectory: the
scan recurses into it once. -/
def two_completed_tree : Fs := .dir 4096 true [("d", .dir 4096 true [])]

/-- A root whose only child is a dot-named matching directory. -/
def hidden_root_tree : Fs :=
  .dir 4096 true [(".node_modules", .dir 4096 true [("x", .file 7)])]

/-- A root whose dot-named matching directory sits one level down, inside
the recursive matching phase. -/
def hidden_nested_tree : Fs :=
  .dir 4096 true [("sub", .dir 4096 true [(".node_modules", .dir 4096 true [("x", .file 7)])])]

/-- A matching directory containing another matching directory, for the
search-mode demonstration. -/
def search_demo_tree : Fs :=
  .dir 4096 true [("node_modules", .dir 4096 true [("node_inner", .dir 4096 true [])])]

mutual
/-- Two trees differ only by reordering sibling children lists, at any
depth: the processing order of siblings, which the parallel fan-out leaves
unspecified, is the only difference between them. -/
inductive SibPerm : Fs → Fs → Prop where
  | file (n : Nat) : SibPerm (.file n) (.file n)
  | badMeta : SibPerm .badMeta .badMeta
  | dir (sl : Nat) (r : Bool) {cs cs₁ cs₂ : List (String × Fs)}
      (hf : SibPermEnts cs cs₁) (hp : cs₁.Perm cs₂) :
      SibPerm (.dir sl r cs) (.dir sl r cs₂)

/-- Pointwise `SibPerm` on children lists (same names, same order). -/
inductive SibPermEnts : List (String × Fs) → List (String × Fs) → Prop where
  | nil : SibPermEnts [] []
  | cons (n : String) {t t' : Fs} {rest rest' : List (String × Fs)}
      (ht : SibPerm t t') (hrest : SibPermEnts rest rest') :
      SibPermEnts ((n, t) :: rest) ((n, t') :: rest')
end

/-! ## Lemmas about the size aggregator -/

/-- The parallel branch is the sum of the per-child values. -/
theorem dynChildrenPar_eq_sum (cs : List (String × Fs)) (d : Nat) :
    dynChildrenPar cs d =
      (cs.map (fun c =>
        if metaOk c.2 then (if isDirMeta c.2 then inner_calculate_dynamic c.2 d else metaLen c.2)
        else 0)).sum := by
  induction cs with
  | nil => simp [dynChildrenPar]
  | cons c rest ih => cases c with
    | mk n t => simp [dynChildrenPar, ih]

/-- The serial accumulator loop computes the same sum as the parallel
branch, shifted by the accumulator. -/
theorem dynChildrenSer_eq (cs : List (String × Fs)) (d acc : Nat) :
    dynChildrenSer cs d acc = acc + dynChildrenPar cs d := by
  induction cs generalizing acc with
  | nil => simp [dynChildrenSer, dynChildrenPar]
  | cons c rest ih => cases c with
    | mk n t =>
        simp only [dynChildrenSer, dynChildrenPar, ih]
        omega

/-- The loop of `inner_calculate_serial` as an accumulator-shifted sum. -/
theorem serChildren_eq_sum (cs : List (String × Fs)) (acc : Nat) :
    serChildren cs acc = acc +
      (cs.map (fun c =>
        if metaOk c.2 then (if isDirMeta c.2 then inner_calculate_serial c.2 else metaLen c.2)
        else 0)).sum := by
  induction cs generalizing acc with
  | nil => simp [serChildren]
  | cons c rest ih => cases c with
    | mk n t =>
        simp only [serChildren, List.map_cons, List.sum_cons, ih]
        omega

/-- The specification-side sum as a mapped sum. -/
theorem entsFileBytes_eq_sum (cs : List (String × Fs)) :
    entsFileBytes cs = (cs.map (fun c => entryBytes c.2)).sum := by
  induction cs with
  | nil => simp [entsFileBytes]
  | cons c rest ih => cases c with
    | mk n t => simp [entsFileBytes, ih]

/-- The per-child value of either execution path, with the recursive call
already replaced by `spec_aggregate`, is the specification-side value. -/
theorem entryBytes_cases (t : Fs) :
    (if metaOk t then (if isDirMeta t then spec_aggregate t else metaLen t) else 0)
      = entryBytes t := by
  cases t with
  | file n => simp [metaOk, isDirMeta, metaLen, entryBytes]
  | badMeta => simp [metaOk, entryBytes]
  | dir sl r cs => cases r with
    | true => simp [metaOk, isDirMeta, spec_aggregate, entryBytes]
    | false => simp [metaOk, isDirMeta, spec_aggregate, entryBytes]

/-- The dynamic aggregator computes the specification sum, at every depth
(the depth only selects between the two equal execution branches). -/
theorem dyn_eq_spec : ∀ (t : Fs) (d : Nat), inner_calculate_dynamic t d = spec_aggregate t
  | .file _, _ => by simp [inner_calculate_dynamic, spec_aggregate]
  | .badMeta, _ => by simp [inner_calculate_dynamic, spec_aggregate]
  | .dir _ false _, _ => by simp [inner_calculate_dynamic, spec_aggregate]
  | .dir sl true cs, d => by
      have hpt : dynChildrenPar cs (d + 1) = entsFileBytes cs := by
        rw [dynChildrenPar_eq_sum, entsFileBytes_eq_sum]
        refine congrArg List.sum (List.map_congr_left fun c hc => ?_)
        rw [dyn_eq_spec c.2 (d + 1)]
        exact entryBytes_cases c.2
      simp only [inner_calculate_dynamic, spec_aggregate]
      rw [dynChildrenSer_eq]
      split <;> simpa using hpt
  termination_by t _ => sizeOf t
  decreasing_by
    have h1 := List.sizeOf_lt_of_mem hc
    obtain ⟨a, b⟩ := c
    simp only [Fs.dir.sizeOf_spec, Prod.mk.sizeOf_spec] at *
    omega

/-- The serial aggregator computes the specification sum. -/
theorem ser_eq_spec : ∀ (t : Fs), inner_calculate_serial t = spec_aggregate t
  | .file _ => by simp [inner_calculate_serial, spec_aggregate]
  | .badMeta => by simp [inner_calculate_serial, spec_aggregate]
  | .dir _ false _ => by simp [inner_calculate_serial, spec_aggregate]
  | .dir sl true cs => by
      simp only [inner_calculate_serial, spec_aggregate]
      rw [serChildren_eq_sum, entsFileBytes_eq_sum, Nat.zero_add]
      refine congrArg List.sum (List.map_congr_left fun c hc => ?_)
      rw [ser_eq_spec c.2]
      exact entryBytes_cases c.2
  termination_by t => sizeOf t
  decreasing_by
    have h1 := List.sizeOf_lt_of_mem hc
    obtain ⟨a, b⟩ := c
    simp only [Fs.dir.sizeOf_spec, Prod.mk.sizeOf_spec] at *
    omega

/-- The specification sum is invariant under permuting a children list. -/
theorem entsFileBytes_perm {cs cs' : List (String × Fs)} (h : cs.Perm cs') :
    entsFileBytes cs = entsFileBytes cs' := by
  rw [entsFileBytes_eq_sum, entsFileBytes_eq_sum]
  exact (h.map _).sum_eq

mutual
/-- `SibPerm` is reflexive. -/
theorem sibPerm_refl : ∀ t : Fs, SibPerm t t
  | .file n => .file n
  | .badMeta => .badMeta
  | .dir sl r cs => .dir sl r (sibPermEnts_refl cs) (List.Perm.refl cs)

/-- `SibPermEnts` is reflexive. -/
theorem sibPermEnts_refl : ∀ l : List (String × Fs), SibPermEnts l l
  | [] => .nil
  | (n, t) :: rest => .cons n (sibPerm_refl t) (sibPermEnts_refl rest)
end

mutual
/-- The specification-side child value is invariant under deep sibling
reordering. -/
theorem sibPerm_entryBytes : ∀ {t t' : Fs}, SibPerm t t' → entryBytes t = entryBytes t'
  | _, _, .file _ => rfl
  | _, _, .badMeta => rfl
  | _, _, .dir sl r hf hp => by
      cases r with
      | false => rfl
      | true =>
          show entsFileBytes _ = entsFileBytes _
          exact (sibPermEnts_entsFileBytes hf).trans (entsFileBytes_perm hp)

/-- The specification-side children sum is invariant under pointwise deep
sibling reordering. -/
theorem sibPermEnts_entsFileBytes :
    ∀ {l l' : List (String × Fs)}, SibPermEnts l l' → entsFileBytes l = entsFileBytes l'
  | _, _, .nil => rfl
  | _, _, .cons n ht hrest => by
      simp only [entsFileBytes]
      rw [sibPerm_entryBytes ht, sibPermEnts_entsFileBytes hrest]
end

/-- The specification aggregate is invariant under deep sibling reordering. -/
theorem sibPerm_spec_aggregate {t t' : Fs} (h : SibPerm t t') :
    spec_aggregate t = spec_aggregate t' := by
  cases h with
  | file n => rfl
  | badMeta => rfl
  | dir sl r hf hp =>
      cases r with
      | false => rfl
      | true =>
          show entsFileBytes _ = entsFileBytes _
          exact (sibPermEnts_entsFileBytes hf).trans (entsFileBytes_perm hp)

/-! ## Lemmas about human_readable_size -/

/-- The unit loop advances at most `fuel` times. -/
theorem hrs_loop_le (fuel : Nat) : ∀ (bytes u : Nat), hrs_loop fuel bytes u ≤ u + fuel := by
  induction fuel with
  | zero => intro bytes u; simp [hrs_loop]
  | succ f ih =>
      intro bytes u
      simp only [hrs_loop]
      split
      · exact le_trans (ih bytes (u + 1)) (by omega)
      · omega

/-- The selected unit index is in bounds of the unit array. -/
theorem hrs_unit_lt (bytes : Nat) : hrs_unit bytes < units.length := by
  have h := hrs_loop_le (units.length - 1) bytes 0
  simp only [hrs_unit]
  have : units.length = 5 := rfl
  omega

/-- If every allowed step's guard holds, the loop uses all its fuel. -/
theorem hrs_loop_all (fuel : Nat) :
    ∀ (bytes u : Nat), (∀ k, k < fuel → 1024 ^ (u + k + 1) ≤ bytes) →
      hrs_loop fuel bytes u = u + fuel := by
  induction fuel with
  | zero => intro bytes u _; simp [hrs_loop]
  | succ f ih =>
      intro bytes u h
      have h0 : 1024 ^ (u + 1) ≤ bytes := by
        have := h 0 (by omega)
        simpa using this
      simp only [hrs_loop, if_pos h0]
      have := ih bytes (u + 1) (fun k hk => by
        have := h (k + 1) (by omega)
        have e : u + (k + 1) + 1 = u + 1 + k + 1 := by omega
        rwa [e] at this)
      omega

/-- Inputs of at least a tebibyte select the last unit (index 4, `"TB"`). -/
theorem hrs_unit_tb (bytes : Nat) (h : 1024 ^ 4 ≤ bytes) : hrs_unit bytes = 4 := by
  have hall : ∀ k, k < units.length - 1 → 1024 ^ (0 + k + 1) ≤ bytes := by
    intro k hk
    refine le_trans (Nat.pow_le_pow_right (by norm_num) ?_) h
    have : units.length = 5 := rfl
    omega
  have e := hrs_loop_all (units.length - 1) bytes 0 hall
  have : units.length = 5 := rfl
  simp only [hrs_unit, e]
  omega

/-- Unfolding of `human_readable_size` on a nonzero input. -/
theorem hrs_shape (bytes : Nat) (h : bytes ≠ 0) :
    human_readable_size bytes =
      fmt_fixed1 bytes (hrs_unit bytes) ++ units.getD (hrs_unit bytes) "<oob>" := by
  simp [human_readable_size, h]

/-- The loop only moves past a unit whose base-1024 threshold is reached:
the final unit is the starting one, or its threshold is at most `bytes`. -/
theorem hrs_loop_pow_le (fuel : Nat) : ∀ (bytes u : Nat),
    hrs_loop fuel bytes u = u ∨ 1024 ^ hrs_loop fuel bytes u ≤ bytes := by
  induction fuel with
  | zero => intro bytes u; left; rfl
  | succ f ih =>
      intro bytes u
      simp only [hrs_loop]
      split
      · rcases ih bytes (u + 1) with h | h
        · right
          rw [h]
          assumption
        · right
          exact h
      · left
        rfl

/-- The loop stops either because the fuel (the unit array) is exhausted or
because the next base-1024 threshold is not reached. -/
theorem hrs_loop_stop (fuel : Nat) : ∀ (bytes u : Nat),
    hrs_loop fuel bytes u = u + fuel ∨ bytes < 1024 ^ (hrs_loop fuel bytes u + 1) := by
  induction fuel with
  | zero => intro bytes u; left; rfl
  | succ f ih =>
      intro bytes u
      simp only [hrs_loop]
      split
      · rcases ih bytes (u + 1) with h | h
        · left
          omega
        · right
          exact h
      · right
        omega

/-- Base-1024 characterization of the selected unit: unless the loop never
advanced, the selected unit's threshold is reached, and unless the unit
array was exhausted, the next threshold is not. -/
theorem hrs_unit_spec (bytes : Nat) :
    (hrs_unit bytes = 0 ∨ 1024 ^ hrs_unit bytes ≤ bytes)
    ∧ (hrs_unit bytes = 4 ∨ bytes < 1024 ^ (hrs_unit bytes + 1)) := by
  constructor
  · exact hrs_loop_pow_le (units.length - 1) bytes 0
  · rcases hrs_loop_stop (units.length - 1) bytes 0 with h | h
    · left
      simpa [hrs_unit] using h
    · right
      exact h

/-! ## Lemmas about the name sort and the scan trace -/

/-- Insertion produces a permutation of consing. -/
theorem insertByName_perm (x : String × Fs) :
    ∀ l : List (String × Fs), (insertByName x l).Perm (x :: l) := by
  intro l
  induction l with
  | nil => simp [insertByName]
  | cons y ys ih =>
      simp only [insertByName]
      split
      · exact List.Perm.refl _
      · exact (ih.cons y).trans (List.Perm.swap x y ys)

/-- The name sort permutes the children. -/
theorem sortByName_perm : ∀ l : List (String × Fs), (sortByName l).Perm l := by
  intro l
  induction l with
  | nil => simp [sortByName]
  | cons x xs ih => exact (insertByName_perm x (sortByName xs)).trans (ih.cons x)

/-- Sorting a subtree does not change whether its metadata reads. -/
theorem metaOk_sortTree (t : Fs) : metaOk (sortTree t) = metaOk t := by
  cases t <;> rfl

/-- Sorting a subtree does not change whether it is a directory. -/
theorem isDirMeta_sortTree (t : Fs) : isDirMeta (sortTree t) = isDirMeta t := by
  cases t <;> rfl

/-- The expected `Completed` census over a children list as a mapped sum. -/
theorem completedCountChildren_eq_sum (cs : List (String × Fs)) :
    completedCountChildren cs =
      (cs.map (fun c =>
        if metaOk c.2 && (isDirMeta c.2 && !strContains c.1 target_name)
        then completedCount c.2 else 0)).sum := by
  induction cs with
  | nil => simp [completedCountChildren]
  | cons c rest ih => cases c with
    | mk n t => simp [completedCountChildren, ih]

/-- The expected `Completed` census is invariant under permuting children. -/
theorem completedCountChildren_perm {cs cs' : List (String × Fs)}
    (h : cs.Perm cs') : completedCountChildren cs = completedCountChildren cs' := by
  rw [completedCountChildren_eq_sum, completedCountChildren_eq_sum]
  exact (h.map _).sum_eq

/-- Pre-sorting the tree does not change the expected `Completed` census. -/
theorem completedCount_sortTree : ∀ t : Fs, completedCount (sortTree t) = completedCount t
  | .file _ => rfl
  | .badMeta => rfl
  | .dir sl false cs => by simp [sortTree, completedCount]
  | .dir sl true cs => by
      have hcongr : completedCountChildren (sortEachChild cs) = completedCountChildren cs := by
        rw [completedCountChildren_eq_sum, completedCountChildren_eq_sum]
        have hmap : ∀ l : List (String × Fs),
            (∀ c ∈ l, completedCount (sortTree c.2) = completedCount c.2) →
            ((sortEachChild l).map (fun c =>
                if metaOk c.2 && (isDirMeta c.2 && !strContains c.1 target_name)
                then completedCount c.2 else 0)) =
              (l.map (fun c =>
                if metaOk c.2 && (isDirMeta c.2 && !strContains c.1 target_name)
                then completedCount c.2 else 0)) := by
          intro l hl
          induction l with
          | nil => rfl
          | cons c rest ih =>
              obtain ⟨n, t⟩ := c
              simp only [sortEachChild, List.map_cons, metaOk_sortTree, isDirMeta_sortTree,
                hl (n, t) (by simp)]
              rw [ih (fun c hc => hl c (List.mem_cons_of_mem _ hc))]
        refine congrArg List.sum (hmap cs fun c hc => completedCount_sortTree c.2)
      simp only [sortTree, completedCount]
      rw [completedCountChildren_perm (sortByName_perm (sortEachChild cs)), hcongr]
  termination_by t => sizeOf t
  decreasing_by
    have h1 := List.sizeOf_lt_of_mem hc
    obtain ⟨a, b⟩ := c
    simp only [Fs.dir.sizeOf_spec, Prod.mk.sizeOf_spec] at *
    omega

/-- Counting `Completed` distributes over appends. -/
theorem countCompleted_append (a b : List ScanStatus) :
    countCompleted (a ++ b) = countCompleted a + countCompleted b := by
  simp [countCompleted, List.countP_append]

/-- A `Scanning` event does not change the `Completed` count. -/
theorem countCompleted_scanning_cons (p : String) (pr : Nat) (l : List ScanStatus) :
    countCompleted (.Scanning p pr :: l) = countCompleted l := by
  simp [countCompleted, List.countP_cons]

/-- A `Completed` event increments the `Completed` count. -/
theorem countCompleted_completed_cons (a : Nat) (s : String) (l : List ScanStatus) :
    countCompleted (.Completed a s :: l) = countCompleted l + 1 := by
  simp [countCompleted, List.countP_cons]

/-- The empty trace has no `Completed` events. -/
theorem countCompleted_nil : countCompleted [] = 0 := rfl

/-- The child loop of the scan sends exactly the expected number of
`Completed` events, given that each recursed-into subtree does. -/
theorem scanGoChildren_count (path : String) :
    ∀ (l : List (String × Fs)) (total processed : Nat),
      (∀ c ∈ l, ∀ p : String, countCompleted (scanGo p c.2).1 = completedCount c.2) →
      countCompleted (scanGoChildren path total processed l).1 = completedCountChildren l := by
  intro l
  induction l with
  | nil => intro total processed _; simp [scanGoChildren, completedCountChildren, countCompleted]
  | cons c rest ih =>
      intro total processed hl
      obtain ⟨n, sub⟩ := c
      have hrest := ih total (processed + 1) (fun c hc => hl c (List.mem_cons_of_mem _ hc))
      have hsub := hl (n, sub) (by simp) (path ++ "/" ++ n)
      simp only [scanGoChildren, completedCountChildren, countCompleted_scanning_cons,
        countCompleted_append, hrest]
      have hchild :
          countCompleted
            (if metaOk sub = true then
              if isDirMeta sub = true then
                if strContains n target_name = true then
                  (([] : List ScanStatus), ([] : List FileEntry))
                else scanGo (path ++ "/" ++ n) sub
              else ([], [scan_file_entry (path ++ "/" ++ n) sub])
            else ([], [])).1 =
          (if metaOk sub && (isDirMeta sub && !strContains n target_name)
            then completedCount sub else 0) := by
        by_cases h1 : metaOk sub = true
        · by_cases h2 : isDirMeta sub = true
          · by_cases h3 : strContains n target_name = true
            · simp [h1, h2, h3, countCompleted]
            · simp only [Bool.not_eq_true] at h3
              simp [h1, h2, h3, hsub]
          · simp only [Bool.not_eq_true] at h2
            simp [h1, h2, countCompleted]
        · simp only [Bool.not_eq_true] at h1
          simp [h1, countCompleted]
      rw [hchild]

/-- Every invocation of the scan body sends exactly one `Completed` per
successfully listed directory in its subtree. -/
theorem scanGo_count : ∀ (t : Fs) (path : String),
    countCompleted (scanGo path t).1 = completedCount t
  | .file _, path => by simp [scanGo, completedCount, countCompleted]
  | .badMeta, path => by simp [scanGo, completedCount, countCompleted]
  | .dir _ false _, path => by simp [scanGo, completedCount, countCompleted]
  | .dir sl true cs, path => by
      have hch := scanGoChildren_count path cs cs.length 0
        (fun c hc p => scanGo_count c.2 p)
      simp only [scanGo, completedCount, countCompleted_scanning_cons, countCompleted_append,
        countCompleted_completed_cons, countCompleted_nil, hch]
      omega
  termination_by t _ => sizeOf t
  decreasing_by
    have h1 := List.sizeOf_lt_of_mem hc
    obtain ⟨a, b⟩ := c
    simp only [Fs.dir.sizeOf_spec, Prod.mk.sizeOf_spec] at *
    omega

/-- The scan body on a readable directory ends its event trace with that
invocation's `Completed` event, whose payload is the length of the returned
entry vector and the human-readable sum of its raw sizes. -/
theorem scanGo_last (path : String) (sl : Nat) (cs : List (String × Fs)) :
    (scanGo path (.dir sl true cs)).1.getLast? =
      some (.Completed (scanGo path (.dir sl true cs)).2.length
        (human_readable_size
          (((scanGo path (.dir sl true cs)).2.map FileEntry.size_raw).sum))) := by
  simp only [scanGo]
  rw [← List.cons_append]
  exact List.getLast?_concat _

/-! ## Claim theorems -/

/-- C1, counterexample.  The claim says every `FileEntry` emitted for a
matched directory carries the aggregated byte total of its subtree, and that
on the scenario tree `root/node_modules` is emitted with the 5MB aggregate
(5242880 bytes).  On the modelled `list_directory` the root-level match
falls through to an entry built from the directory's own `metadata.len()`
(4096 here), so the second emitted entry carries 4096, not 5242880. -/
theorem c1_counterexample :
    (list_directory "root" scenario_tree).map (fun e => (e.path, e.size_raw)) =
      [("root/a/node_modules", 104857600), ("root/node_modules", 4096)]
    ∧ (4096 : Nat) ≠ 5242880 := by
  constructor
  · decide
  · decide

/-- C1 (amended): during the recursive matching phase
(`calculate_dir_size_parallel`), a matched directory yields exactly one
entry whose `size_raw` is the subtree aggregate computed by the size
aggregator and whose path is canonicalized, and the walk does not descend
into the matched subtree to emit entries for its internals; a directory
matched at the root level (`list_directory`'s own loop) is instead emitted
with its own `metadata.len()` as `size_raw`, not an aggregate.  On the
scenario tree exactly two entries are produced: `root/a/node_modules` with
the 100MB aggregate and `root/node_modules` with its inode size 4096. -/
theorem c1_matched_subtree_amended :
    (∀ (path name n : String) (sub : Fs) (rest : List (String × Fs)),
        strStarts n "." = false → metaOk sub = true → isDirMeta sub = true →
        strContains n name = true →
        cdspChildren path name ((n, sub) :: rest) =
          cdsp_match_entry (path ++ "/" ++ n) sub :: cdspChildren path name rest)
  ∧ (∀ (p : String) (sub : Fs),
        (cdsp_match_entry p sub).size_raw = spec_aggregate sub
        ∧ (cdsp_match_entry p sub).path = get_canonical_path p)
  ∧ (∀ (path n : String) (sub : Fs) (rest : List (String × Fs)),
        metaOk sub = true → isDirMeta sub = true → strContains n target_name = true →
        ldChildren path ((n, sub) :: rest) =
          ld_root_entry (path ++ "/" ++ n) sub :: ldChildren path rest)
  ∧ (∀ (p : String) (sub : Fs), (ld_root_entry p sub).size_raw = metaLen sub)
  ∧ (list_directory "root" scenario_tree).map (fun e => (e.path, e.size_raw)) =
      [("root/a/node_modules", 104857600), ("root/node_modules", 4096)] := by
  refine ⟨?_, ?_, ?_, fun p sub => rfl, by decide⟩
  · intro path name n sub rest h1 h2 h3 h4
    simp [cdspChildren, h1, h2, h3, h4]
  · intro p sub
    exact ⟨dyn_eq_spec sub 0, rfl⟩
  · intro path n sub rest h1 h2 h3
    simp [ldChildren, h1, h2, h3]

/-- C1, witness for the amended theorem: a concrete matched subdirectory in
the recursive phase produces exactly its aggregate entry. -/
theorem c1_witness :
    cdspChildren "root" "node_modules"
        [("node_modules", Fs.dir 4096 true [("x", Fs.file 5)])] =
      cdsp_match_entry "root/node_modules" (Fs.dir 4096 true [("x", Fs.file 5)]) ::
        cdspChildren "root" "node_modules" [] :=
  c1_matched_subtree_amended.1 "root" "node_modules" "node_modules"
    (Fs.dir 4096 true [("x", Fs.file 5)]) [] (by decide) (by decide) (by decide) (by decide)

/-- C2: the parallelism decision is the pure function of
(depth, directory count, total items) given by the specification's ordered
rules with first match winning, `should_use_parallel` computes exactly that
function of its items census, and the two boundary evaluations hold. -/
theorem c2_parallel_policy :
    (∀ (items : List (String × Fs)) (depth : Nat),
        should_use_parallel items depth =
          parallel_decision depth (dirCount items) items.length)
  ∧ (∀ depth dc ti : Nat, depth > 10 → parallel_decision depth dc ti = false)
  ∧ (∀ depth dc ti : Nat, depth ≤ 10 → dc > 8 → parallel_decision depth dc ti = true)
  ∧ (∀ depth dc ti : Nat, depth ≤ 10 → dc ≤ 8 → ti > 100 →
        parallel_decision depth dc ti = true)
  ∧ (∀ depth dc ti : Nat, depth ≤ 10 → dc ≤ 8 → ti ≤ 100 → depth > 5 →
        parallel_decision depth dc ti = decide (dc > 4))
  ∧ (∀ depth dc ti : Nat, depth ≤ 10 → dc ≤ 8 → ti ≤ 100 → depth ≤ 5 →
        parallel_decision depth dc ti =
          (decide (depth < 3) || (decide (depth < 6) && decide (dc > 2))))
  ∧ parallel_decision 0 9 1 = true
  ∧ parallel_decision 11 100 1000 = false := by
  refine ⟨fun items depth => rfl, ?_, ?_, ?_, ?_, ?_, by decide, by decide⟩
  · intro depth dc ti h
    unfold parallel_decision
    rw [if_pos h]
  · intro depth dc ti h1 h2
    unfold parallel_decision
    rw [if_neg (by omega), if_pos h2]
  · intro depth dc ti h1 h2 h3
    unfold parallel_decision
    rw [if_neg (by omega), if_neg (by omega), if_pos h3]
  · intro depth dc ti h1 h2 h3 h4
    unfold parallel_decision
    rw [if_neg (by omega), if_neg (by omega), if_neg (by omega), if_pos h4]
  · intro depth dc ti h1 h2 h3 h4
    unfold parallel_decision
    rw [if_neg (by omega), if_neg (by omega), if_neg (by omega), if_neg (by omega)]

/-- C2, witness: the boundary rules applied at concrete inputs. -/
theorem c2_witness :
    should_use_parallel ([] : List (String × Fs)) 0 = parallel_decision 0 0 0
    ∧ parallel_decision 12 9 1000 = false
    ∧ parallel_decision 7 5 1 = true := by
  refine ⟨c2_parallel_policy.1 [] 0, c2_parallel_policy.2.1 12 9 1000 (by omega), ?_⟩
  have h := c2_parallel_policy.2.2.2.2.1 7 5 1 (by omega) (by omega) (by omega) (by omega)
  simpa using h

/-- C3: for every fixed tree the serial path and the dynamic (parallel
fan-out) path compute the identical byte total, both equal to the
specification's sum of the sizes of all readable files in the subtree, and
the total is unchanged when a directory's children — or, via `SibPerm`, the
sibling lists at every depth simultaneously — are processed in any other
order. -/
theorem c3_sum_invariant :
    (∀ (t : Fs) (d : Nat), inner_calculate_serial t = inner_calculate_dynamic t d)
  ∧ (∀ (t : Fs) (d : Nat), inner_calculate_dynamic t d = spec_aggregate t)
  ∧ (∀ (sl d : Nat) (cs cs' : List (String × Fs)), cs.Perm cs' →
        inner_calculate_dynamic (.dir sl true cs) d =
          inner_calculate_dynamic (.dir sl true cs') d)
  ∧ (∀ (t t' : Fs), SibPerm t t' → ∀ (d d' : Nat),
        inner_calculate_dynamic t d = inner_calculate_dynamic t' d') := by
  refine ⟨fun t d => (ser_eq_spec t).trans (dyn_eq_spec t d).symm, dyn_eq_spec, ?_, ?_⟩
  · intro sl d cs cs' h
    rw [dyn_eq_spec, dyn_eq_spec]
    simpa [spec_aggregate] using entsFileBytes_perm h
  · intro t t' h d d'
    rw [dyn_eq_spec, dyn_eq_spec]
    exact sibPerm_spec_aggregate h

/-- C3, witness: a concrete tree evaluated on both paths and on a permuted
sibling order. -/
theorem c3_witness :
    inner_calculate_serial (Fs.dir 0 true [("a", Fs.file 1), ("b", Fs.file 2)]) =
      inner_calculate_dynamic (Fs.dir 0 true [("a", Fs.file 1), ("b", Fs.file 2)]) 3
    ∧ inner_calculate_dynamic (Fs.dir 0 true [("a", Fs.file 1), ("b", Fs.file 2)]) 3 = 3
    ∧ inner_calculate_dynamic (Fs.dir 0 true [("a", Fs.file 1), ("b", Fs.file 2)]) 0 =
        inner_calculate_dynamic (Fs.dir 0 true [("b", Fs.file 2), ("a", Fs.file 1)]) 0
    ∧ inner_calculate_dynamic
          (Fs.dir 0 true [("c", Fs.dir 1 true [("a", Fs.file 1), ("b", Fs.file 2)])]) 0 =
        inner_calculate_dynamic
          (Fs.dir 0 true [("c", Fs.dir 1 true [("b", Fs.file 2), ("a", Fs.file 1)])]) 5 := by
  refine ⟨c3_sum_invariant.1 _ 3, by decide, c3_sum_invariant.2.2.1 0 0 _ _ ?_, ?_⟩
  · exact List.Perm.swap _ _ _
  · refine c3_sum_invariant.2.2.2 _ _ ?_ 0 5
    exact .dir 0 true
      (.cons "c" (.dir 1 true (sibPermEnts_refl _) (List.Perm.swap _ _ _)) .nil)
      (List.Perm.refl _)

/-- C4: an unreadable directory aggregates 0; an unreadable subtree or an
entry with unreadable metadata contributes exactly 0 while the remaining
siblings (and hence ancestors) are still aggregated; shown for the dynamic
aggregator and, for metadata failures, for the serial one as well.  All
modelled functions are total, so no listing or metadata failure can abort
the aggregation. -/
theorem c4_error_resilience :
    (∀ (d sl : Nat) (junk : List (String × Fs)),
        inner_calculate_dynamic (.dir sl false junk) d = 0)
  ∧ (∀ (d sl jsl : Nat) (n : String) (junk cs : List (String × Fs)),
        inner_calculate_dynamic (.dir sl true ((n, .dir jsl false junk) :: cs)) d =
          inner_calculate_dynamic (.dir sl true cs) d)
  ∧ (∀ (d sl : Nat) (n : String) (cs : List (String × Fs)),
        inner_calculate_dynamic (.dir sl true ((n, .badMeta) :: cs)) d =
          inner_calculate_dynamic (.dir sl true cs) d)
  ∧ (∀ (sl : Nat) (n : String) (cs : List (String × Fs)),
        inner_calculate_serial (.dir sl true ((n, .badMeta) :: cs)) =
          inner_calculate_serial (.dir sl true cs)) := by
  refine ⟨fun d sl junk => by simp [inner_calculate_dynamic], ?_, ?_, ?_⟩
  · intro d sl jsl n junk cs
    rw [dyn_eq_spec, dyn_eq_spec]
    simp [spec_aggregate, entsFileBytes, entryBytes]
  · intro d sl n cs
    rw [dyn_eq_spec, dyn_eq_spec]
    simp [spec_aggregate, entsFileBytes, entryBytes]
  · intro sl n cs
    rw [ser_eq_spec, ser_eq_spec]
    simp [spec_aggregate, entsFileBytes, entryBytes]

/-- C5, counterexample.  The claim says exactly one terminal `Completed`
event is sent over the whole scan, "not one per directory level".  On a
root with a single readable, non-matching, empty subdirectory the modelled
`scan_directory_with_progress` sends two `Completed` events — one from the
recursive invocation on the subdirectory and one from the root invocation. -/
theorem c5_counterexample :
    countCompleted (scan_directory_with_progress "root" two_completed_tree).1 = 2
    ∧ (2 : Nat) ≠ 1 := by
  constructor
  · decide
  · decide

/-- C5 (amended): each invocation of `scan_directory_with_progress` whose
directory listing succeeds sends exactly one `Completed` for itself, so a
scan sends one `Completed` per successfully listed directory it visits
(the root plus every recursed-into readable non-matching subdirectory) —
`completedCount` — rather than exactly one; when the root is a readable
directory, the final event of the whole trace is the root invocation's
`Completed`, and all `Scanning` events precede it. -/
theorem c5_completed_per_invocation :
    (∀ (path : String) (t : Fs),
        countCompleted (scan_directory_with_progress path t).1 = completedCount t)
  ∧ (∀ (path : String) (sl : Nat) (cs : List (String × Fs)),
        ((scan_directory_with_progress path (.dir sl true cs)).1).getLast? =
          some (.Completed (scan_directory_with_progress path (.dir sl true cs)).2.length
            (human_readable_size
              (((scan_directory_with_progress path (.dir sl true cs)).2.map
                  FileEntry.size_raw).sum)))) := by
  constructor
  · intro path t
    rw [scan_directory_with_progress, scanGo_count, completedCount_sortTree]
  · intro path sl cs
    rw [scan_directory_with_progress]
    simp only [sortTree]
    exact scanGo_last path sl _

/-- C6: the zero case and the three unit-boundary evaluations hold, and for
every nonzero input the output is a one-decimal-place number followed by
one of the base-1024 units B, KB, MB, GB, TB; the selected unit is governed
by the base-1024 thresholds: its own threshold `1024 ^ unit` is reached
(unless the unit is B) and the next one is not (unless the unit is TB). -/
theorem c6_human_readable_size :
    human_readable_size 0 = "0B"
  ∧ human_readable_size 1023 = "1023.0B"
  ∧ human_readable_size 1024 = "1.0KB"
  ∧ human_readable_size (1024 * 1024) = "1.0MB"
  ∧ (∀ b : Nat, b ≠ 0 → ∃ u ∈ units, ∃ n : Nat,
      human_readable_size b = toString (n / 10) ++ "." ++ toString (n % 10) ++ u)
  ∧ (∀ b : Nat, b ≠ 0 →
      human_readable_size b =
        fmt_fixed1 b (hrs_unit b) ++ units.getD (hrs_unit b) "<oob>"
      ∧ (hrs_unit b = 0 ∨ 1024 ^ hrs_unit b ≤ b)
      ∧ (hrs_unit b = 4 ∨ b < 1024 ^ (hrs_unit b + 1))) := by
  refine ⟨by decide, by decide, by decide, by decide, ?_,
    fun b hb => ⟨hrs_shape b hb, (hrs_unit_spec b).1, (hrs_unit_spec b).2⟩⟩
  intro b hb
  refine ⟨units.getD (hrs_unit b) "<oob>", ?_,
    roundHalfEvenDiv (10 * b) (1024 ^ hrs_unit b), ?_⟩
  · have h := hrs_unit_lt b
    set u := hrs_unit b with hu
    have h5 : u < 5 := h
    interval_cases u <;> decide
  · rw [hrs_shape b hb]
    rfl

/-- C6, witness: the general one-decimal shape at a concrete nonzero input. -/
theorem c6_witness :
    ∃ u ∈ units, ∃ n : Nat,
      human_readable_size 2048 = toString (n / 10) ++ "." ++ toString (n % 10) ++ u :=
  c6_human_readable_size.2.2.2.2.1 2048 (by decide)

/-- C7: the deletion lifecycle follows exactly the transition table of the
space-key handler: request-delete from `NotDeleted` passes through
`Deleting` and ends in `Deleted` on success or back in `NotDeleted` on
failure; request-delete in `Deleting` is ignored; request-delete in
`Deleted` is a no-op (no assignment at all); and any action sequence from
`NotDeleted` stays within the three states. -/
theorem c7_delete_lifecycle :
    request_delete_trace .NotDeleted true = [.Deleting, .Deleted]
  ∧ request_delete_trace .NotDeleted false = [.Deleting, .NotDeleted]
  ∧ (∀ ok : Bool, request_delete .Deleting ok = .Deleting)
  ∧ (∀ ok : Bool, request_delete .Deleted ok = .Deleted
      ∧ request_delete_trace .Deleted ok = [])
  ∧ (∀ (oks : List Bool),
      oks.foldl request_delete .NotDeleted ∈
        [DeleteStatus.NotDeleted, DeleteStatus.Deleting, DeleteStatus.Deleted]) := by
  refine ⟨rfl, rfl, fun ok => by cases ok <;> rfl,
    fun ok => ⟨by cases ok <;> rfl, by cases ok <;> rfl⟩, ?_⟩
  intro oks
  cases h : oks.foldl request_delete .NotDeleted <;> simp

/-- C8: during the recursive matching phase a child whose name begins with
`'.'` contributes nothing — it is neither matched nor recursed into — while
the root-level listing does consider dot-named children: a dot-named
matching directory at the root is emitted, and the same directory one level
down is not. -/
theorem c8_hidden_exclusion :
    (∀ (path name n : String) (sub : Fs) (rest : List (String × Fs)),
        strStarts n "." = true →
        cdspChildren path name ((n, sub) :: rest) = cdspChildren path name rest)
  ∧ (list_directory "root" hidden_root_tree).map (fun e => e.path) = ["root/.node_modules"]
  ∧ list_directory "root" hidden_nested_tree = [] := by
  refine ⟨?_, by decide, by decide⟩
  intro path name n sub rest h
  simp [cdspChildren, h]

/-- C8, witness: a concrete dot-named child is dropped by the recursive
matching phase. -/
theorem c8_witness :
    cdspChildren "root" "node_modules" [(".git", Fs.dir 4096 true [])] =
      cdspChildren "root" "node_modules" [] :=
  c8_hidden_exclusion.1 "root" "node_modules" ".git" (Fs.dir 4096 true []) [] (by decide)

/-- C10: the interactive search matches by substring containment; a matched
directory is both emitted and recursed into, so entries nested inside a
matched directory are also emitted — unlike the cleanup matcher
(`calculate_dir_size_parallel`), which on the same tree emits only the
outer match. -/
theorem c10_search_recurses_into_matches :
    (∀ (path pattern n : String) (sub : Fs) (rest : List (String × Fs)),
        strContains n pattern = true → metaOk sub = true → isDirMeta sub = true →
        searchChildren path pattern ((n, sub) :: rest) =
          search_entry (path ++ "/" ++ n) sub ::
            (search_directory_recursive (path ++ "/" ++ n) pattern sub
              ++ searchChildren path pattern rest))
  ∧ (search_directory_recursive "root" "node" search_demo_tree).map (fun e => e.path) =
      ["root/node_modules", "root/node_modules/node_inner"]
  ∧ (calculate_dir_size_parallel "root" "node" search_demo_tree).map (fun e => e.path) =
      ["root/node_modules"] := by
  refine ⟨?_, by decide, by decide⟩
  intro path pattern n sub rest h1 h2 h3
  simp [searchChildren, h1, h2, h3]

/-- C10, witness: a concrete matched directory is emitted and recursed. -/
theorem c10_witness :
    searchChildren "root" "node" [("node_modules", Fs.dir 4096 true [])] =
      search_entry "root/node_modules" (Fs.dir 4096 true []) ::
        (search_directory_recursive "root/node_modules" "node" (Fs.dir 4096 true [])
          ++ searchChildren "root" "node" []) :=
  c10_search_recurses_into_matches.1 "root" "node" "node_modules"
    (Fs.dir 4096 true []) [] (by decide) (by decide) (by decide)

/-- C9: the unit-selection loop keeps the index within the unit array (so
the `units[unit]` access cannot be out of bounds and the function, modelled
total, cannot panic), and every input of at least `1024 ^ 4` bytes selects
the terminal `"TB"` unit, so petabyte-scale sizes render as large TB
values. -/
theorem c9_unit_index_safe :
    (∀ b : Nat, hrs_unit b < units.length)
  ∧ (∀ b : Nat, 1024 ^ 4 ≤ b →
      units.getD (hrs_unit b) "<oob>" = "TB"
      ∧ ∃ s : String, human_readable_size b = s ++ "TB") := by
  refine ⟨hrs_unit_lt, ?_⟩
  intro b h
  have h4 := hrs_unit_tb b h
  have hb : b ≠ 0 := by
    have : (0 : Nat) < 1024 ^ 4 := by norm_num
    omega
  refine ⟨by rw [h4]; rfl, fmt_fixed1 b 4, ?_⟩
  rw [hrs_shape b hb, h4]
  rfl

/-- C9, witness: exactly one tebibyte is in bounds and renders with the
`"TB"` suffix. -/
theorem c9_witness :
    units.getD (hrs_unit (1024 ^ 4)) "<oob>" = "TB"
    ∧ ∃ s : String, human_readable_size (1024 ^ 4) = s ++ "TB" :=
  c9_unit_index_safe.2 (1024 ^ 4) (le_refl _)

end Rustkill
